import Mathlib

/-!
Shallow embedding of the parsing-and-reshaping core of `src/pge_plots.py`:
the header locator `get_zip_header_line_col_names`, the cost / price-per-unit
derivation of `read_process_csv`, the weather de-duplication, the pandas-style
`pivot` used for the heat maps, and the tick helper `get_heatmap_ticks`.
Lines are modelled as `List Char` (decoded text, newline terminators kept,
exactly as `readlines` produces them); fallible paths that call
`st.error` / `st.stop` are modelled as `Except String`.
-/

namespace PgePlots

/-- ASCII digit test: the embedding of the regex character class `\d`
used in the zip pattern on line 145 of `pge_plots.py`. -/
def isDig (c : Char) : Bool := 48 ≤ c.toNat && c.toNat ≤ 57

/-- Numeric value of an ASCII digit character. -/
def digVal (c : Char) : Nat := c.toNat - 48

/-- Decimal value of a digit string: the embedding of `int(...)` applied to a
captured digit group (line 144). -/
def toNatL (l : List Char) : Nat := l.foldl (fun n c => n * 10 + digVal c) 0

/-- `line.startswith(tok)` (lines 131 and 157 of `pge_plots.py`). -/
def startsTok (tok l : List Char) : Bool := decide (l.take tok.length = tok)

/-- One attempt of the regex `(9\d{4})(\d{4})` at the head of the list:
succeeds when the first nine characters are digits beginning with `9`,
returning the two captured groups (five digits, four digits). -/
def matchZipAt : List Char → Option (List Char × List Char)
  | c0 :: c1 :: c2 :: c3 :: c4 :: c5 :: c6 :: c7 :: c8 :: _ =>
    if c0 = '9' ∧ isDig c1 ∧ isDig c2 ∧ isDig c3 ∧ isDig c4 ∧
        isDig c5 ∧ isDig c6 ∧ isDig c7 ∧ isDig c8 then
      some ([c0, c1, c2, c3, c4], [c5, c6, c7, c8])
    else none
  | _ => none

/-- Left-to-right unanchored scan of `re.findall(r"(9\d{4})(\d{4})", line)[0]`
(line 145): the leftmost window of nine consecutive digits starting with `9`,
split into its 5-digit and 4-digit groups. -/
def findZip : List Char → Option (List Char × List Char)
  | [] => none
  | c :: rest =>
    match matchZipAt (c :: rest) with
    | some p => some p
    | none => findZip rest

/-- The line contains nine consecutive digit characters whose first is `9`
(the language of the regex `(9\d{4})(\d{4})` as a plain decomposition). -/
def NineRun (l : List Char) : Prop :=
  ∃ p c0 c1 c2 c3 c4 c5 c6 c7 c8 s,
    l = p ++ c0 :: c1 :: c2 :: c3 :: c4 :: c5 :: c6 :: c7 :: c8 :: s ∧
    c0 = '9' ∧ isDig c1 ∧ isDig c2 ∧ isDig c3 ∧ isDig c4 ∧
    isDig c5 ∧ isDig c6 ∧ isDig c7 ∧ isDig c8

/-- Prepend a character onto the first group of a split result. -/
def consHead (c : Char) : List (List Char) → List (List Char)
  | [] => [[c]]
  | g :: gs => (c :: g) :: gs

/-- Python `str.split(sep)` for a one-character separator (line 171,
`split(",")`): a raw split, nothing stripped, always at least one group. -/
def splitOnChar (sep : Char) : List Char → List (List Char)
  | [] => [[]]
  | c :: rest =>
    if c = sep then [] :: splitOnChar sep rest
    else consHead c (splitOnChar sep rest)

/-- Interleave the separator back between the groups (`sep.join(groups)`),
used to state that the split is raw and loses nothing. -/
def joinChar (sep : Char) : List (List Char) → List Char
  | [] => []
  | [g] => g
  | g :: gs => g ++ sep :: joinChar sep gs

/-- The `HeaderAddress` dataclass of `pge_plots.py` (lines 103-107): the 5+4
zip code as a pair of numbers, the header line index, and the raw comma-split
column names of the header line. -/
structure HeaderAddress where
  zip_5_4 : Nat × Nat
  header_line_num : Nat
  col_names : List (List Char)
deriving DecidableEq

/-- The token `"Address"` searched for on line 131. -/
def addressTok : List Char := "Address".toList

/-- The token `"TYPE"` searched for on line 157. -/
def typeTok : List Char := "TYPE".toList

/-- Index of the first line starting with `"Address"` (lines 130-132). -/
def addressLineNum (lines : List (List Char)) : Option Nat :=
  lines.findIdx? (fun line => startsTok addressTok line)

/-- Index of the first line starting with `"TYPE"` (lines 156-158). -/
def headerLineNum (lines : List (List Char)) : Option Nat :=
  lines.findIdx? (fun line => startsTok typeTok line)

/-- The header locator `get_zip_header_line_col_names` (lines 124-173):
find the first `"Address"` line, extract the leftmost 5+4 zip code from it,
find the first `"TYPE"` line, and comma-split that line into column names.
Each `st.error` / `st.stop` exit is modelled as an `Except.error`. -/
def get_zip_header_line_col_names (lines : List (List Char)) :
    Except String HeaderAddress :=
  match addressLineNum lines with
  | none => .error "no line starting with Address found"
  | some a =>
    match findZip (lines.getD a []) with
    | none => .error "no zip code found"
    | some (z5, z4) =>
      match headerLineNum lines with
      | none => .error "no line starting with TYPE found"
      | some h =>
        .ok ⟨(toNatL z5, toNatL z4), h, splitOnChar ',' (lines.getD h [])⟩

/-- The `names=header_address.col_names` argument of `pd.read_csv` in
`read_process_csv` (lines 177-181): the parsed table's columns are taken
verbatim from the locator's column-name list. -/
def readCsvColumns (ha : HeaderAddress) : List (List Char) := ha.col_names

/-- `x.replace("$", "")` on the COST string (line 187): every dollar sign
is removed (the separator is a single character, so this is a filter). -/
def removeDollar (l : List Char) : List Char := l.filter (fun c => c ≠ '$')

/-- A nonempty all-digit group parsed as a number, a building block of
`float(...)` on the cost strings. -/
def digitGroup (l : List Char) : Option Nat :=
  if l ≠ [] ∧ l.all isDig then some (toNatL l) else none

/-- `float(...)` (line 187) on the dollar-stripped cost strings, embedded
over the rationals for the unsigned decimal forms the export uses
(`"1.00"`, `"12"`, ...); any other shape is a parse failure. -/
def parseDecimal (l : List Char) : Option ℚ :=
  match splitOnChar '.' l with
  | [a] => (digitGroup a).map (fun n => (n : ℚ))
  | [a, b] =>
    match digitGroup a, digitGroup b with
    | some n, some f => some ((n : ℚ) + (f : ℚ) / ((10 : ℚ) ^ b.length))
    | _, _ => none
  | _ => none

/-- IEEE float division as pandas performs it on line 188: division never
raises; a zero divisor yields a non-finite value (inf or NaN), modelled
here as `none`, while a nonzero divisor yields the exact quotient. -/
def fdiv (a b : ℚ) : Option ℚ := if b = 0 then none else some (a / b)

/-- The derived `PRICEPERKWH` column (lines 187-188): strip the dollar sign
from COST, parse it, and divide by USAGE. -/
def pricePerUnit (cost : List Char) (usage : ℚ) : Option ℚ :=
  (parseDecimal (removeDollar cost)).bind (fun c => fdiv c usage)

/-- The `month_order` list of `pge_plots.py` (lines 48-61). -/
def month_order : List String :=
  ["Jan", "Feb", "Mar", "Apr", "May", "Jun",
   "Jul", "Aug", "Sep", "Oct", "Nov", "Dec"]

/-- The `hour_order` list of `pge_plots.py` (lines 63-88). -/
def hour_order : List String :=
  ["00:00", "01:00", "02:00", "03:00", "04:00", "05:00",
   "06:00", "07:00", "08:00", "09:00", "10:00", "11:00",
   "12:00", "13:00", "14:00", "15:00", "16:00", "17:00",
   "18:00", "19:00", "20:00", "21:00", "22:00", "23:00"]

/-! ### The pandas pivot (lines 481 and 492-494)

`df.pivot(index=..., columns=..., values=...)` over rows given as
(index key, column key, value) triples: it raises
`ValueError: Index contains duplicate entries, cannot reshape` when two rows
share the same (index, column) key pair, and otherwise produces a matrix
whose row axis is the sorted list of distinct index keys, whose column axis
is the sorted list of distinct column keys, and whose cells are `NaN`
(modelled as `none`) where no source row lands. -/

/-- The rectangular result of a pandas `pivot`. -/
structure PivotMatrix (κ δ μ : Type) where
  rows : List κ
  cols : List δ
  cell : κ → δ → Option μ

/-- The (index, column) key pair of one source row. -/
def keyPair {κ δ μ : Type} (t : κ × δ × μ) : κ × δ := (t.1, t.2.1)

/-- The pandas `pivot` itself. -/
def pivot {κ δ μ : Type} [LinearOrder κ] [LinearOrder δ]
    (data : List (κ × δ × μ)) : Except String (PivotMatrix κ δ μ) :=
  if (data.map keyPair).Nodup then
    .ok
      { rows := List.insertionSort (fun x y => x ≤ y) (data.map (fun t => t.1)).dedup
        cols := List.insertionSort (fun x y => x ≤ y) (data.map (fun t => t.2.1)).dedup
        cell := fun r c =>
          ((data.filter (fun t => keyPair t = (r, c))).map (fun t => t.2.2)).head? }
  else .error "Index contains duplicate entries, cannot reshape"

/-- True on the `.ok` branch of a locator or pivot result. -/
def isOkE {ε α : Type} : Except ε α → Bool
  | .ok _ => true
  | .error _ => false

/-- True on the `.error` branch. -/
def isErrE {ε α : Type} : Except ε α → Bool
  | .ok _ => false
  | .error _ => true

/-- Row axis of a pivot result (empty on error). -/
def rowsE {ε κ δ μ : Type} : Except ε (PivotMatrix κ δ μ) → List κ
  | .ok m => m.rows
  | .error _ => []

/-- Column axis of a pivot result (empty on error). -/
def colsE {ε κ δ μ : Type} : Except ε (PivotMatrix κ δ μ) → List δ
  | .ok m => m.cols
  | .error _ => []

/-- Cell lookup on a pivot result (`none` on error). -/
def cellE {ε κ δ μ : Type} : Except ε (PivotMatrix κ δ μ) → κ → δ → Option μ
  | .ok m => m.cell
  | .error _ => fun _ _ => none

/-- The 5-digit primary zip of a locator result (0 on error). -/
def zip5E {ε : Type} : Except ε HeaderAddress → Nat
  | .ok h => h.zip_5_4.1
  | .error _ => 0

/-- The full 5+4 zip pair of a locator result. -/
def zipPairE {ε : Type} : Except ε HeaderAddress → Option (Nat × Nat)
  | .ok h => some h.zip_5_4
  | .error _ => none

/-- The header line index of a locator result. -/
def headerNumE {ε : Type} : Except ε HeaderAddress → Option Nat
  | .ok h => some h.header_line_num
  | .error _ => none

/-- The column-name count of a locator result (0 on error). -/
def colLenE {ε : Type} : Except ε HeaderAddress → Nat
  | .ok h => h.col_names.length
  | .error _ => 0

/-! ### Weather de-duplication (lines 486-489)

`weather_hourly_df[~weather_hourly_df.duplicated(subset=["DATE", "TIME"],
keep="first")]`: rows are kept in order, and a row is dropped exactly when an
earlier row carries the same (DATE, TIME) pair. -/

/-- The (DATE, TIME) key of a weather row (date, time, temperature). -/
def keyDT {δ τ μ : Type} (r : δ × τ × μ) : δ × τ := (r.1, r.2.1)

/-- Forward scan with the set of already-seen (DATE, TIME) keys. -/
def dedupFirstAux {δ τ μ : Type} [DecidableEq δ] [DecidableEq τ]
    (seen : List (δ × τ)) : List (δ × τ × μ) → List (δ × τ × μ)
  | [] => []
  | r :: rs =>
    if keyDT r ∈ seen then dedupFirstAux seen rs
    else r :: dedupFirstAux (keyDT r :: seen) rs

/-- The de-duplication of lines 487-489: keep the first occurrence of each
(DATE, TIME) key, drop the rest. -/
def dedupFirst {δ τ μ : Type} [DecidableEq δ] [DecidableEq τ]
    (rows : List (δ × τ × μ)) : List (δ × τ × μ) :=
  dedupFirstAux [] rows

/-- The weather pivot of lines 492-494 applied after de-duplication:
`pivot(index="TIME", columns="DATE", values="TEMP_F")`. -/
def weatherPivot {δ τ μ : Type} [LinearOrder δ] [LinearOrder τ]
    [DecidableEq δ] [DecidableEq τ]
    (rows : List (δ × τ × μ)) : Except String (PivotMatrix τ δ μ) :=
  pivot ((dedupFirst rows).map (fun r => (r.2.1, r.1, r.2.2)))

/-! ### Tick derivation, `get_heatmap_ticks` (lines 224-241) -/

/-- A calendar date as pandas presents a `datetime.date` column key. -/
structure Date where
  year : Nat
  month : Nat
  day : Nat
deriving DecidableEq

/-- Two-digit zero-padded decimal rendering (days, months, hours). -/
def pad2 (n : Nat) : List Char :=
  [Nat.digitChar (n / 10 % 10), Nat.digitChar (n % 10)]

/-- Four-digit zero-padded decimal rendering (years). -/
def pad4 (n : Nat) : List Char :=
  [Nat.digitChar (n / 1000 % 10), Nat.digitChar (n / 100 % 10),
   Nat.digitChar (n / 10 % 10), Nat.digitChar (n % 10)]

/-- `str(col)` on a `datetime.date` column key: the ISO form YYYY-MM-DD. -/
def dateStr (d : Date) : List Char :=
  pad4 d.year ++ ['-'] ++ pad2 d.month ++ ['-'] ++ pad2 d.day

/-- `str(col).endswith("01")` (lines 225 and 230). -/
def endsWith01 (l : List Char) : Bool :=
  match l.reverse with
  | b :: a :: _ => a == '0' && b == '1'
  | _ => false

/-- `col.strftime("%b %Y")` (line 230): abbreviated month, a space, and the
four-digit year, with the month names exactly as in `month_order`. -/
def strftimeBY (d : Date) : List Char :=
  (month_order.getD (d.month - 1) "").toList ++ ' ' :: pad4 d.year

/-- The two axes of a heat-map dataframe as `get_heatmap_ticks` receives it;
only the column keys are ever consulted by the function. -/
structure HeatDF (κ : Type) where
  rowKeys : List κ
  colKeys : List Date

/-- The `CustomTicks` dataclass (lines 116-121), at the types the heat-map
path actually produces (integer positions, string labels). -/
structure CustomTicks where
  x_ticks : List Nat
  x_tick_labels : List (List Char)
  y_ticks : List Nat
  y_tick_labels : List (List Char)
deriving DecidableEq

/-- `get_heatmap_ticks` (lines 224-241): x ticks at the positions
(`columns.get_loc`) of the columns whose ISO string ends in `"01"`, labelled
`"%b %Y"`; y ticks fixed at `[i * 4 for i in range(7)]`, labelled
zero-padded `"HH:00"`. -/
def get_heatmap_ticks {κ : Type} (df : HeatDF κ) : CustomTicks :=
  { x_ticks :=
      (df.colKeys.filter (fun c => endsWith01 (dateStr c))).map
        (fun c => df.colKeys.indexOf c)
    x_tick_labels :=
      (df.colKeys.filter (fun c => endsWith01 (dateStr c))).map strftimeBY
    y_ticks := (List.range 7).map (fun i => i * 4)
    y_tick_labels :=
      ((List.range 7).map (fun i => i * 4)).map (fun i => pad2 i ++ [':', '0', '0']) }

/-! ### Concrete documents and tables used to settle the claims -/

/-- A document whose TYPE header line comes before its Address line. -/
def docC3 : List (List Char) :=
  ["TYPE,A\n".toList, "Address 940001234\n".toList]

/-- A well-formed document: Address line with a 9-digit zip, then header. -/
def docC3w : List (List Char) :=
  ["Address 940001234\n".toList, "TYPE,DATE\n".toList]

/-- A well-formed document with a three-column header line. -/
def docC4 : List (List Char) :=
  ["Address 940001234\n".toList, "TYPE,DATE,START TIME\n".toList]

/-- A document with an Address line and zip but no TYPE line. -/
def docC5 : List (List Char) :=
  ["Address 940001234\n".toList]

/-- A document whose address line holds a ten-digit run starting with 9. -/
def docC9 : List (List Char) :=
  ["Address 9123456789\n".toList, "TYPE,DATE\n".toList]

/-- A well-formed two-line document for the raw-split property. -/
def docC10 : List (List Char) :=
  ["Address 940001234\n".toList, "TYPE,DATE\n".toList]

/-- The header address the locator extracts from `docC10`. -/
def haC10 : HeaderAddress :=
  ⟨(94000, 1234), 1, ["TYPE".toList, "DATE\n".toList]⟩

/-- A one-row energy table: a single observation at 00:00 on one date. -/
def dataC1 : List (String × String × ℚ) :=
  [("00:00", "2024-01-01", 1)]

/-- An energy table with two rows in the same (START TIME, DATE) cell. -/
def dataC6 : List (String × String × ℚ) :=
  [("00:00", "2024-01-01", 1), ("00:00", "2024-01-01", 2)]

/-- A weather table with a repeated (DATE, TIME) key, as a fall daylight
saving transition produces. -/
def rowsC7 : List (String × String × ℚ) :=
  [("2024-11-03", "01:00", 10), ("2024-11-03", "01:00", 12),
   ("2024-11-03", "02:00", 9)]

/-- A 24-row, one-column heat-map frame. -/
def dfC2 : HeatDF String :=
  { rowKeys := hour_order, colKeys := [⟨2024, 1, 1⟩] }

/-- A 24-row frame spanning two month boundaries. -/
def dfC2w : HeatDF String :=
  { rowKeys := hour_order,
    colKeys := [⟨2023, 12, 19⟩, ⟨2024, 1, 1⟩, ⟨2024, 1, 2⟩, ⟨2024, 2, 1⟩] }

/-! ## Helper lemmas -/

/-- The split always produces at least one group. -/
theorem splitOnChar_ne_nil (sep : Char) (l : List Char) :
    splitOnChar sep l ≠ [] := by
  cases l with
  | nil => simp [splitOnChar]
  | cons c rest =>
    rw [splitOnChar]
    by_cases hc : c = sep
    · rw [if_pos hc]; simp
    · rw [if_neg hc]
      cases splitOnChar sep rest <;> simp [consHead]

/-- The number of groups is the separator count plus one. -/
theorem length_splitOnChar (sep : Char) (l : List Char) :
    (splitOnChar sep l).length = l.count sep + 1 := by
  induction l with
  | nil => simp [splitOnChar]
  | cons c rest ih =>
    rw [splitOnChar]
    by_cases hc : c = sep
    · subst hc
      rw [if_pos rfl, List.count_cons_self, List.length_cons, ih]
    · rw [if_neg hc, List.count_cons_of_ne (Ne.symm hc)]
      cases h : splitOnChar sep rest with
      | nil => exact absurd h (splitOnChar_ne_nil sep rest)
      | cons g gs =>
        rw [h] at ih
        simpa [consHead] using ih

/-- Joining the groups with the separator restores the original list:
the split is raw and loses nothing. -/
theorem joinChar_splitOnChar (sep : Char) (l : List Char) :
    joinChar sep (splitOnChar sep l) = l := by
  induction l with
  | nil => simp [splitOnChar, joinChar]
  | cons c rest ih =>
    rw [splitOnChar]
    by_cases hc : c = sep
    · rw [if_pos hc]
      cases h : splitOnChar sep rest with
      | nil => exact absurd h (splitOnChar_ne_nil sep rest)
      | cons g gs =>
        rw [h] at ih
        rw [hc]
        simpa [joinChar] using ih
    · rw [if_neg hc]
      cases h : splitOnChar sep rest with
      | nil => exact absurd h (splitOnChar_ne_nil sep rest)
      | cons g gs =>
        rw [h] at ih
        cases gs with
        | nil => simpa [joinChar, consHead] using ih
        | cons g2 gs2 => simpa [joinChar, consHead] using ih

/-- If the original list ends with a character other than the separator
(such as the newline terminator), the last group ends with it too. -/
theorem getLast_splitOnChar (sep c : Char) (l : List Char)
    (hne : c ≠ sep) (hl : l.getLast? = some c) :
    ∃ g, (splitOnChar sep l).getLast? = some g ∧ g.getLast? = some c := by
  induction l with
  | nil => simp at hl
  | cons a rest ih =>
    cases rest with
    | nil =>
      simp only [List.getLast?_singleton, Option.some.injEq] at hl
      subst hl
      have hac : ¬ a = sep := hne
      rw [splitOnChar, if_neg hac]
      exact ⟨[a], by simp [splitOnChar, consHead], by simp⟩
    | cons b rest2 =>
      have hrl : (b :: rest2).getLast? = some c := by
        rw [List.getLast?_cons_cons] at hl
        exact hl
      obtain ⟨g, hg1, hg2⟩ := ih hrl
      have hgne : g ≠ [] := by
        intro hnil
        rw [hnil] at hg2
        simp at hg2
      rw [splitOnChar]
      by_cases hc : a = sep
      · rw [if_pos hc]
        cases h : splitOnChar sep (b :: rest2) with
        | nil => exact absurd h (splitOnChar_ne_nil sep (b :: rest2))
        | cons g0 gs =>
          rw [h] at hg1
          exact ⟨g, by rw [List.getLast?_cons_cons]; exact hg1, hg2⟩
      · rw [if_neg hc]
        cases h : splitOnChar sep (b :: rest2) with
        | nil => exact absurd h (splitOnChar_ne_nil sep (b :: rest2))
        | cons g0 gs =>
          rw [h] at hg1
          cases gs with
          | nil =>
            have hgg : g0 = g := by simpa using hg1
            refine ⟨a :: g, by simp [consHead, hgg], ?_⟩
            cases g with
            | nil => exact absurd rfl hgne
            | cons g1 gt =>
              rw [List.getLast?_cons_cons]
              exact hg2
          | cons g2 gs2 =>
            refine ⟨g, ?_, hg2⟩
            simp only [consHead, List.getLast?_cons_cons]
            rw [List.getLast?_cons_cons] at hg1
            exact hg1

/-- A digit character has value at most 9. -/
theorem digVal_le_nine {c : Char} (h : isDig c = true) : digVal c ≤ 9 := by
  simp only [isDig, Bool.and_eq_true, decide_eq_true_eq] at h
  simp only [digVal]
  omega

/-- Bounds for the five-digit group captured by the zip regex: it is a
number between 90000 and 99999. -/
theorem toNatL_zip5_bound {c1 c2 c3 c4 : Char}
    (h1 : isDig c1 = true) (h2 : isDig c2 = true)
    (h3 : isDig c3 = true) (h4 : isDig c4 = true) :
    90000 ≤ toNatL ['9', c1, c2, c3, c4] ∧ toNatL ['9', c1, c2, c3, c4] ≤ 99999 := by
  have b1 := digVal_le_nine h1
  have b2 := digVal_le_nine h2
  have b3 := digVal_le_nine h3
  have b4 := digVal_le_nine h4
  have h9 : digVal '9' = 9 := by decide
  simp only [toNatL, List.foldl, h9]
  omega

/-- Shape of a successful anchored match: the list starts with the nine
digits and the groups are exactly the first five and the next four. -/
theorem matchZipAt_some {l : List Char} {a b : List Char}
    (h : matchZipAt l = some (a, b)) :
    ∃ c0 c1 c2 c3 c4 c5 c6 c7 c8 s,
      l = c0 :: c1 :: c2 :: c3 :: c4 :: c5 :: c6 :: c7 :: c8 :: s ∧
      a = [c0, c1, c2, c3, c4] ∧ b = [c5, c6, c7, c8] ∧
      c0 = '9' ∧ isDig c1 = true ∧ isDig c2 = true ∧ isDig c3 = true ∧
      isDig c4 = true ∧ isDig c5 = true ∧ isDig c6 = true ∧
      isDig c7 = true ∧ isDig c8 = true := by
  match l, h with
  | c0 :: c1 :: c2 :: c3 :: c4 :: c5 :: c6 :: c7 :: c8 :: s, h => ?_
  rw [matchZipAt] at h
  split at h
  · rename_i hc
    obtain ⟨h0, hd1, hd2, hd3, hd4, hd5, hd6, hd7, hd8⟩ := hc
    injection h with h
    injection h with ha hb
    exact ⟨c0, c1, c2, c3, c4, c5, c6, c7, c8, s, rfl, ha.symm, hb.symm,
      h0, hd1, hd2, hd3, hd4, hd5, hd6, hd7, hd8⟩
  · exact absurd h (by simp)

/-- A successful unanchored scan yields groups of the matched shape, and
the line indeed contains a nine-digit run starting with 9. -/
theorem findZip_some {l : List Char} {a b : List Char}
    (h : findZip l = some (a, b)) :
    (∃ c0 c1 c2 c3 c4 c5 c6 c7 c8,
      a = [c0, c1, c2, c3, c4] ∧ b = [c5, c6, c7, c8] ∧
      c0 = '9' ∧ isDig c1 = true ∧ isDig c2 = true ∧ isDig c3 = true ∧
      isDig c4 = true ∧ isDig c5 = true ∧ isDig c6 = true ∧
      isDig c7 = true ∧ isDig c8 = true) ∧ NineRun l := by
  induction l with
  | nil => simp [findZip] at h
  | cons c rest ih =>
    rw [findZip] at h
    cases hm : matchZipAt (c :: rest) with
    | some p =>
      rw [hm] at h
      have hp : p = (a, b) := by simpa using h
      subst hp
      obtain ⟨c0, c1, c2, c3, c4, c5, c6, c7, c8, s, hl, ha, hb, h0,
        hd1, hd2, hd3, hd4, hd5, hd6, hd7, hd8⟩ := matchZipAt_some hm
      refine ⟨⟨c0, c1, c2, c3, c4, c5, c6, c7, c8, ha, hb, h0,
        hd1, hd2, hd3, hd4, hd5, hd6, hd7, hd8⟩, ?_⟩
      exact ⟨[], c0, c1, c2, c3, c4, c5, c6, c7, c8, s, by simpa using hl,
        h0, hd1, hd2, hd3, hd4, hd5, hd6, hd7, hd8⟩
    | none =>
      rw [hm] at h
      have h2 : findZip rest = some (a, b) := by simpa using h
      obtain ⟨hshape, p, c0, c1, c2, c3, c4, c5, c6, c7, c8, s, hl, hrest⟩ := ih h2
      exact ⟨hshape, c :: p, c0, c1, c2, c3, c4, c5, c6, c7, c8, s,
        by rw [hl]; rfl, hrest⟩

/-- If the line contains a nine-digit run starting with 9, the unanchored
scan succeeds. -/
theorem findZip_isSome_of_nineRun {l : List Char} (h : NineRun l) :
    (findZip l).isSome = true := by
  obtain ⟨p, c0, c1, c2, c3, c4, c5, c6, c7, c8, s, hl, h0,
    hd1, hd2, hd3, hd4, hd5, hd6, hd7, hd8⟩ := h
  subst hl
  induction p with
  | nil =>
    rw [List.nil_append, findZip]
    have hmz : matchZipAt (c0 :: c1 :: c2 :: c3 :: c4 :: c5 :: c6 :: c7 :: c8 :: s)
        = some ([c0, c1, c2, c3, c4], [c5, c6, c7, c8]) := by
      rw [matchZipAt]
      rw [if_pos ⟨h0, hd1, hd2, hd3, hd4, hd5, hd6, hd7, hd8⟩]
    simp [hmz]
  | cons x p2 ih =>
    rw [List.cons_append, findZip]
    cases hm : matchZipAt (x :: (p2 ++ c0 :: c1 :: c2 :: c3 :: c4 :: c5 :: c6 :: c7 :: c8 :: s)) with
    | some q => simp
    | none => simpa using ih

/-- Inversion of a successful run of the header locator. -/
theorem locator_ok_inv {lines : List (List Char)} {ha : HeaderAddress}
    (h : get_zip_header_line_col_names lines = .ok ha) :
    ∃ a z5 z4,
      addressLineNum lines = some a ∧
      findZip (lines.getD a []) = some (z5, z4) ∧
      headerLineNum lines = some ha.header_line_num ∧
      ha.zip_5_4 = (toNatL z5, toNatL z4) ∧
      ha.col_names = splitOnChar ',' (lines.getD ha.header_line_num []) := by
  cases haddr : addressLineNum lines with
  | none =>
    simp only [get_zip_header_line_col_names, haddr] at h
    exact Except.noConfusion h
  | some a =>
    cases hz : findZip (lines.getD a []) with
    | none =>
      simp only [get_zip_header_line_col_names, haddr, hz] at h
      exact Except.noConfusion h
    | some p =>
      obtain ⟨z5, z4⟩ := p
      cases hh : headerLineNum lines with
      | none =>
        simp only [get_zip_header_line_col_names, haddr, hz, hh] at h
        exact Except.noConfusion h
      | some hln =>
        simp only [get_zip_header_line_col_names, haddr, hz, hh,
          Except.ok.injEq] at h
        subst h
        exact ⟨a, z5, z4, rfl, hz, rfl, rfl, rfl⟩

/-- If a key is hit at least twice, the mapped key list has a repeat. -/
theorem not_nodup_of_two_le_filter {α β : Type} [DecidableEq β]
    (f : α → β) (k : β) :
    ∀ l : List α, 2 ≤ (l.filter (fun x => f x = k)).length →
      ¬ (l.map f).Nodup := by
  intro l
  induction l with
  | nil => simp
  | cons a t ih =>
    intro h2 hnd
    rw [List.map_cons, List.nodup_cons] at hnd
    obtain ⟨hna, hnt⟩ := hnd
    rw [List.filter_cons] at h2
    by_cases hfa : f a = k
    · rw [if_pos (by simp [hfa])] at h2
      have h1 : 1 ≤ (t.filter (fun x => f x = k)).length := by
        simp only [List.length_cons] at h2
        omega
      have hne : t.filter (fun x => f x = k) ≠ [] := by
        intro hq
        rw [hq] at h1
        simp at h1
      obtain ⟨b, hb⟩ := List.exists_mem_of_ne_nil _ hne
      have hbmem := List.mem_filter.mp hb
      apply hna
      rw [List.mem_map]
      refine ⟨b, hbmem.1, ?_⟩
      have : f b = k := by simpa using hbmem.2
      rw [this, hfa]
    · rw [if_neg (by simp [hfa])] at h2
      exact ih h2 hnt

/-- A filtered length can only shrink when the head is dropped. -/
theorem filter_length_le_cons {α : Type} (p : α → Bool) (a : α) (t : List α) :
    (t.filter p).length ≤ ((a :: t).filter p).length := by
  rw [List.filter_cons]
  by_cases hp : p a = true
  · rw [if_pos hp]; simp
  · rw [if_neg hp]

/-- If every key is hit at most once, the mapped key list has no repeat. -/
theorem nodup_map_of_filter_le_one {α β : Type} [DecidableEq β]
    (g : α → β) :
    ∀ l : List α, (∀ k, (l.filter (fun x => g x = k)).length ≤ 1) →
      (l.map g).Nodup := by
  intro l
  induction l with
  | nil => simp
  | cons a t ih =>
    intro h1
    rw [List.map_cons, List.nodup_cons]
    constructor
    · intro hmem
      obtain ⟨b, hbt, hba⟩ := List.mem_map.mp hmem
      have h := h1 (g a)
      rw [List.filter_cons, if_pos (by simp)] at h
      simp only [List.length_cons] at h
      have hbf : b ∈ t.filter (fun x => g x = g a) := by
        rw [List.mem_filter]
        exact ⟨hbt, by simpa using hba⟩
      have : 1 ≤ (t.filter (fun x => g x = g a)).length :=
        List.length_pos.mpr (List.ne_nil_of_mem hbf)
      omega
    · exact ih (fun k => le_trans (filter_length_le_cons _ a t) (h1 k))

/-- The de-duplication scan never emits a key already seen. -/
theorem dedupFirstAux_filter_mem {δ τ μ : Type} [DecidableEq δ] [DecidableEq τ]
    (k : δ × τ) :
    ∀ (rows : List (δ × τ × μ)) (seen : List (δ × τ)), k ∈ seen →
      (dedupFirstAux seen rows).filter (fun r => keyDT r = k) = [] := by
  intro rows
  induction rows with
  | nil => intro seen _; simp [dedupFirstAux]
  | cons r rs ih =>
    intro seen hk
    rw [dedupFirstAux]
    by_cases hr : keyDT r ∈ seen
    · rw [if_pos hr]
      exact ih seen hk
    · rw [if_neg hr]
      rw [List.filter_cons]
      have hrk : ¬ keyDT r = k := by
        intro he
        rw [he] at hr
        exact hr hk
      rw [if_neg (by simp [hrk])]
      exact ih (keyDT r :: seen) (List.mem_cons_of_mem _ hk)

/-- For an unseen key the scan keeps exactly the first matching row. -/
theorem dedupFirstAux_filter_not_mem {δ τ μ : Type} [DecidableEq δ] [DecidableEq τ]
    (k : δ × τ) :
    ∀ (rows : List (δ × τ × μ)) (seen : List (δ × τ)), k ∉ seen →
      (dedupFirstAux seen rows).filter (fun r => keyDT r = k)
        = (rows.filter (fun r => keyDT r = k)).take 1 := by
  intro rows
  induction rows with
  | nil => intro seen _; simp [dedupFirstAux]
  | cons r rs ih =>
    intro seen hk
    rw [dedupFirstAux]
    by_cases hr : keyDT r ∈ seen
    · rw [if_pos hr]
      have hrk : ¬ keyDT r = k := by
        intro he
        rw [he] at hr
        exact hk hr
      rw [List.filter_cons, if_neg (by simp [hrk])]
      exact ih seen hk
    · rw [if_neg hr]
      by_cases hrk : keyDT r = k
      · rw [List.filter_cons, List.filter_cons,
          if_pos (by simp [hrk]), if_pos (by simp [hrk])]
        rw [dedupFirstAux_filter_mem k rs (keyDT r :: seen)
          (by rw [hrk]; exact List.mem_cons_self _ _)]
        simp
      · rw [List.filter_cons, List.filter_cons,
          if_neg (by simp [hrk]), if_neg (by simp [hrk])]
        refine ih (keyDT r :: seen) ?_
        intro hmem
        rcases List.mem_cons.mp hmem with he | hs
        · exact hrk he.symm
        · exact hk hs

/-- On ISO date strings with a two-digit day field, ending in "01" is
exactly being the first day of the month. -/
theorem endsWith01_eq_day_one (d : Date) (hd : d.day < 100) :
    endsWith01 (dateStr d) = decide (d.day = 1) := by
  have h : dateStr d
      = (pad4 d.year ++ ['-'] ++ pad2 d.month ++ ['-']) ++ pad2 d.day := by
    simp [dateStr, List.append_assoc]
  have h2 : (dateStr d).reverse
      = Nat.digitChar (d.day % 10) :: Nat.digitChar (d.day / 10 % 10) ::
          (pad4 d.year ++ ['-'] ++ pad2 d.month ++ ['-']).reverse := by
    rw [h, List.reverse_append]
    simp [pad2]
  have key : ∀ n, n < 100 →
      ((Nat.digitChar (n / 10 % 10) == '0') && (Nat.digitChar (n % 10) == '1'))
        = decide (n = 1) := by decide
  rw [endsWith01, h2]
  exact key d.day hd

/-- For a duplicate-free column list, mapping `indexOf` over a filtered
sublist gives exactly the filtered positions, in order. -/
theorem map_indexOf_filter {α : Type} [DecidableEq α] (p : α → Bool) (dflt : α) :
    ∀ l : List α, l.Nodup →
      (l.filter p).map (fun x => l.indexOf x)
        = (List.range l.length).filter (fun i => p (l.getD i dflt)) := by
  intro l
  induction l with
  | nil => intro _; simp
  | cons c cs ih =>
    intro hnd
    rw [List.nodup_cons] at hnd
    obtain ⟨hc, hcs⟩ := hnd
    rw [List.length_cons, List.range_succ_eq_map, List.filter_cons,
      List.filter_cons, List.filter_map]
    have hq : ((fun i => p ((c :: cs).getD i dflt)) ∘ Nat.succ)
        = (fun i => p (cs.getD i dflt)) := by
      funext i
      simp
    rw [hq, ← ih hcs]
    have hmap : (cs.filter p).map (fun x => (c :: cs).indexOf x)
        = ((cs.filter p).map (fun x => cs.indexOf x)).map Nat.succ := by
      rw [List.map_map]
      apply List.map_congr_left
      intro x hx
      have hxcs := (List.mem_filter.mp hx).1
      have hcx : (c == x) = false :=
        beq_eq_false_iff_ne.mpr (fun he => hc (he ▸ hxcs))
      simp [List.indexOf_cons, hcx, Nat.succ_eq_add_one]
    by_cases hpc : p c = true
    · rw [if_pos hpc, if_pos (by simpa using hpc), List.map_cons]
      have h0 : (c :: cs).indexOf c = 0 := by
        simp [List.indexOf_cons]
      rw [h0, hmap]
    · rw [if_neg hpc, if_neg (by simpa using hpc), hmap]

/-! ## Claims -/

/-- C1 (counterexample): the claim says the row axis of every produced
pivot is always the full 24-hour sequence 00:00 through 23:00; but on a
table whose only observation is at 00:00 the pivot succeeds and its row
axis is just the observed hour, not `hour_order`. -/
theorem pivot_rows_missing_hour_cex :
    isOkE (pivot dataC1) = true ∧ rowsE (pivot dataC1) ≠ hour_order := by
  decide

/-- C1 (amended): for every pivot the reshaper produces, the row axis is
the sorted duplicate-free list of the observed index keys (chronological,
and equal to the full 24-hour sequence only when every hour is observed),
the column axis is the sorted duplicate-free list of the observed column
keys, and a cell no source row maps to is absent (`none`), not zero. -/
theorem pivot_axes_spec {κ δ μ : Type} [LinearOrder κ] [LinearOrder δ]
    (data : List (κ × δ × μ)) (h : isOkE (pivot data) = true) :
    (rowsE (pivot data)).Sorted (fun x y => x ≤ y) ∧
    (rowsE (pivot data)).Nodup ∧
    (∀ t, t ∈ rowsE (pivot data) ↔ ∃ e ∈ data, e.1 = t) ∧
    (colsE (pivot data)).Sorted (fun x y => x ≤ y) ∧
    (colsE (pivot data)).Nodup ∧
    (∀ c, c ∈ colsE (pivot data) ↔ ∃ e ∈ data, e.2.1 = c) ∧
    (∀ r c, (∀ e ∈ data, keyPair e ≠ (r, c)) → cellE (pivot data) r c = none) := by
  by_cases hn : (data.map keyPair).Nodup
  · simp only [pivot, if_pos hn, rowsE, colsE, cellE]
    refine ⟨List.sorted_insertionSort _ _,
      ((List.perm_insertionSort _ _).nodup_iff).mpr (List.nodup_dedup _),
      ?_,
      List.sorted_insertionSort _ _,
      ((List.perm_insertionSort _ _).nodup_iff).mpr (List.nodup_dedup _),
      ?_, ?_⟩
    · intro t
      rw [List.mem_insertionSort, List.mem_dedup, List.mem_map]
    · intro c
      rw [List.mem_insertionSort, List.mem_dedup, List.mem_map]
    · intro r c hnone
      have hfil : data.filter (fun t => keyPair t = (r, c)) = [] :=
        List.filter_eq_nil_iff.mpr (fun e he => by simpa using hnone e he)
      rw [hfil]
      rfl
  · rw [pivot, if_neg hn] at h
    exact absurd h (by simp [isOkE])

/-- C1 (witness): the amended statement instantiated at the one-row table. -/
theorem pivot_axes_spec_witness :
    isOkE (pivot dataC1) = true ∧
    ((rowsE (pivot dataC1)).Sorted (fun x y => x ≤ y) ∧
     (rowsE (pivot dataC1)).Nodup ∧
     (∀ t, t ∈ rowsE (pivot dataC1) ↔ ∃ e ∈ dataC1, e.1 = t) ∧
     (colsE (pivot dataC1)).Sorted (fun x y => x ≤ y) ∧
     (colsE (pivot dataC1)).Nodup ∧
     (∀ c, c ∈ colsE (pivot dataC1) ↔ ∃ e ∈ dataC1, e.2.1 = c) ∧
     (∀ r c, (∀ e ∈ dataC1, keyPair e ≠ (r, c)) →
        cellE (pivot dataC1) r c = none)) :=
  ⟨by decide, pivot_axes_spec dataC1 (by decide)⟩

/-- C2 (counterexample): the claim says the y-ticks are the row indices
0,4,8,12,16,20,24 intersected with the valid row range; on a 24-row matrix
(rows 0..23) the code still emits the tick 24, so the produced tick list
differs from that intersection. -/
theorem heatmap_yticks_out_of_range_cex :
    (get_heatmap_ticks dfC2).y_ticks = [0, 4, 8, 12, 16, 20, 24] ∧
    dfC2.rowKeys.length = 24 ∧
    ((get_heatmap_ticks dfC2).y_ticks).filter (fun i => i < dfC2.rowKeys.length)
      ≠ (get_heatmap_ticks dfC2).y_ticks := by
  decide

/-- C2 (amended): for duplicate-free calendar-date column keys, the x-ticks
are exactly the column positions whose date is the first of its month,
labelled abbreviated month plus 4-digit year; the y-ticks are always the
fixed indices 0,4,8,12,16,20,24 (no intersection with the row range), each
labelled as a zero-padded "HH:00" string. -/
theorem get_heatmap_ticks_spec {κ : Type} (df : HeatDF κ)
    (hval : ∀ c ∈ df.colKeys, c.day < 100) (hnd : df.colKeys.Nodup) :
    (get_heatmap_ticks df).x_ticks
      = (List.range df.colKeys.length).filter
          (fun i => (df.colKeys.getD i ⟨0, 0, 0⟩).day = 1) ∧
    (get_heatmap_ticks df).x_tick_labels
      = (df.colKeys.filter (fun c => c.day = 1)).map strftimeBY ∧
    (get_heatmap_ticks df).y_ticks = [0, 4, 8, 12, 16, 20, 24] ∧
    (get_heatmap_ticks df).y_tick_labels
      = ["00:00", "04:00", "08:00", "12:00", "16:00", "20:00", "24:00"].map
          String.toList := by
  have hfe : df.colKeys.filter (fun c => endsWith01 (dateStr c))
      = df.colKeys.filter (fun c => c.day = 1) := by
    apply List.filter_congr
    intro c hcmem
    rw [endsWith01_eq_day_one c (hval c hcmem)]
  refine ⟨?_, ?_, rfl, rfl⟩
  · show (df.colKeys.filter (fun c => endsWith01 (dateStr c))).map
        (fun c => df.colKeys.indexOf c) = _
    rw [hfe]
    exact map_indexOf_filter _ ⟨0, 0, 0⟩ df.colKeys hnd
  · show (df.colKeys.filter (fun c => endsWith01 (dateStr c))).map strftimeBY = _
    rw [hfe]

/-- C2 (witness): the amended statement at a frame spanning two month
boundaries. -/
theorem get_heatmap_ticks_spec_witness :
    (∀ c ∈ dfC2w.colKeys, c.day < 100) ∧ dfC2w.colKeys.Nodup ∧
    ((get_heatmap_ticks dfC2w).x_ticks
        = (List.range dfC2w.colKeys.length).filter
            (fun i => (dfC2w.colKeys.getD i ⟨0, 0, 0⟩).day = 1) ∧
     (get_heatmap_ticks dfC2w).x_tick_labels
        = (dfC2w.colKeys.filter (fun c => c.day = 1)).map strftimeBY ∧
     (get_heatmap_ticks dfC2w).y_ticks = [0, 4, 8, 12, 16, 20, 24] ∧
     (get_heatmap_ticks dfC2w).y_tick_labels
        = ["00:00", "04:00", "08:00", "12:00", "16:00", "20:00", "24:00"].map
            String.toList) :=
  ⟨by decide, by decide, get_heatmap_ticks_spec dfC2w (by decide) (by decide)⟩

/-- C3 (counterexample): the claim says a successful locator run always has
header line index strictly greater than the address line index; on a
document whose TYPE line precedes its Address line the locator succeeds
with header index 0 and address index 1, and 0 > 1 fails. -/
theorem header_before_address_cex :
    isOkE (get_zip_header_line_col_names docC3) = true ∧
    headerNumE (get_zip_header_line_col_names docC3) = some 0 ∧
    addressLineNum docC3 = some 1 ∧
    ¬ ((0 : Nat) > 1) := by
  decide

/-- C3 (amended): on every document on which the locator succeeds, the
postal primary component is a 5-digit numeric code beginning with 9
(between 90000 and 99999); no ordering between the header line index and
the address line index is enforced or guaranteed. -/
theorem locator_zip5_range (lines : List (List Char))
    (h : isOkE (get_zip_header_line_col_names lines) = true) :
    90000 ≤ zip5E (get_zip_header_line_col_names lines) ∧
    zip5E (get_zip_header_line_col_names lines) ≤ 99999 := by
  cases heq : get_zip_header_line_col_names lines with
  | error e =>
    rw [heq] at h
    exact absurd h (by simp [isOkE])
  | ok ha =>
    obtain ⟨a, z5, z4, _, hz, _, hzip, _⟩ := locator_ok_inv heq
    obtain ⟨⟨c0, c1, c2, c3, c4, c5, c6, c7, c8, ha5, _, h0,
      hd1, hd2, hd3, hd4, _, _, _, _⟩, _⟩ := findZip_some hz
    have hv : zip5E (Except.ok ha : Except String HeaderAddress)
        = toNatL z5 := by
      simp [zip5E, hzip]
    rw [hv, ha5, h0]
    exact toNatL_zip5_bound hd1 hd2 hd3 hd4

/-- C3 (witness): the amended statement at a well-formed document. -/
theorem locator_zip5_range_witness :
    isOkE (get_zip_header_line_col_names docC3w) = true ∧
    (90000 ≤ zip5E (get_zip_header_line_col_names docC3w) ∧
     zip5E (get_zip_header_line_col_names docC3w) ≤ 99999) :=
  ⟨by decide, locator_zip5_range docC3w (by decide)⟩

/-- C4: a document whose first Address line embeds nine consecutive digits
beginning with 9 and which has a TYPE line makes the locator succeed, with
a 5-digit postal primary beginning with 9 and a column list whose length is
the header line's comma count plus one. -/
theorem locator_success_spec (lines : List (List Char)) (a : Nat)
    (haddr : addressLineNum lines = some a)
    (hz : NineRun (lines.getD a []))
    (ht : (headerLineNum lines).isSome = true) :
    isOkE (get_zip_header_line_col_names lines) = true ∧
    90000 ≤ zip5E (get_zip_header_line_col_names lines) ∧
    zip5E (get_zip_header_line_col_names lines) ≤ 99999 ∧
    colLenE (get_zip_header_line_col_names lines)
      = (lines.getD
          ((headerNumE (get_zip_header_line_col_names lines)).getD 0) []).count ','
          + 1 := by
  have hs := findZip_isSome_of_nineRun hz
  cases hzz : findZip (lines.getD a []) with
  | none =>
    rw [hzz] at hs
    exact absurd hs (by simp)
  | some p =>
    obtain ⟨z5, z4⟩ := p
    cases hh : headerLineNum lines with
    | none =>
      rw [hh] at ht
      exact absurd ht (by simp)
    | some hln =>
      have hloc : get_zip_header_line_col_names lines
          = .ok ⟨(toNatL z5, toNatL z4), hln,
              splitOnChar ',' (lines.getD hln [])⟩ := by
        simp only [get_zip_header_line_col_names, haddr, hzz, hh]
      obtain ⟨⟨c0, c1, c2, c3, c4, c5, c6, c7, c8, ha5, _, h0,
        hd1, hd2, hd3, hd4, _, _, _, _⟩, _⟩ := findZip_some hzz
      rw [hloc]
      refine ⟨rfl, ?_, ?_, ?_⟩
      · have hv : zip5E (Except.ok (⟨(toNatL z5, toNatL z4), hln,
            splitOnChar ',' (lines.getD hln [])⟩ : HeaderAddress)
              : Except String HeaderAddress) = toNatL z5 := rfl
        rw [hv, ha5, h0]
        exact (toNatL_zip5_bound hd1 hd2 hd3 hd4).1
      · have hv : zip5E (Except.ok (⟨(toNatL z5, toNatL z4), hln,
            splitOnChar ',' (lines.getD hln [])⟩ : HeaderAddress)
              : Except String HeaderAddress) = toNatL z5 := rfl
        rw [hv, ha5, h0]
        exact (toNatL_zip5_bound hd1 hd2 hd3 hd4).2
      · show (splitOnChar ',' (lines.getD hln [])).length = _
        rw [length_splitOnChar]
        rfl

/-- C4 (witness): the success contract at a concrete two-line document. -/
theorem locator_success_spec_witness :
    addressLineNum docC4 = some 0 ∧
    (headerLineNum docC4).isSome = true ∧
    (isOkE (get_zip_header_line_col_names docC4) = true ∧
     90000 ≤ zip5E (get_zip_header_line_col_names docC4) ∧
     zip5E (get_zip_header_line_col_names docC4) ≤ 99999 ∧
     colLenE (get_zip_header_line_col_names docC4)
       = (docC4.getD
           ((headerNumE (get_zip_header_line_col_names docC4)).getD 0) []).count ','
           + 1) :=
  ⟨by decide, by decide,
    locator_success_spec docC4 0 (by decide)
      ⟨"Address ".toList, '9', '4', '0', '0', '0', '1', '2', '3', '4', ['\n'],
        by decide, by decide, by decide, by decide, by decide, by decide,
        by decide, by decide, by decide, by decide⟩
      (by decide)⟩

/-- C5: a document with no Address line, or whose first Address line has no
embedded nine-digit run beginning with 9, or with no TYPE line, makes the
locator fail with an error and no (partial) HeaderAddress. -/
theorem locator_missing_marker_fails (lines : List (List Char))
    (h : addressLineNum lines = none ∨
         (∃ a, addressLineNum lines = some a ∧ ¬ NineRun (lines.getD a [])) ∨
         headerLineNum lines = none) :
    isErrE (get_zip_header_line_col_names lines) = true := by
  rcases h with h1 | ⟨a, ha, hnr⟩ | h3
  · simp only [get_zip_header_line_col_names, h1, isErrE]
  · cases hz : findZip (lines.getD a []) with
    | some p =>
      obtain ⟨z5, z4⟩ := p
      exact absurd (findZip_some hz).2 hnr
    | none =>
      simp only [get_zip_header_line_col_names, ha, hz, isErrE]
  · cases haddr : addressLineNum lines with
    | none => simp only [get_zip_header_line_col_names, haddr, isErrE]
    | some a =>
      cases hz : findZip (lines.getD a []) with
      | none =>
        simp only [get_zip_header_line_col_names, haddr, hz, isErrE]
      | some p =>
        obtain ⟨z5, z4⟩ := p
        simp only [get_zip_header_line_col_names, haddr, hz, h3, isErrE]

/-- C5 (witness): the failure contract at a document lacking a TYPE line. -/
theorem locator_missing_marker_fails_witness :
    headerLineNum docC5 = none ∧
    isErrE (get_zip_header_line_col_names docC5) = true :=
  ⟨by decide, locator_missing_marker_fails docC5 (Or.inr (Or.inr (by decide)))⟩

/-- C6: when more than one source row maps to the same (index, column)
cell, the pivot fails with the duplicate-entries error instead of silently
overwriting a value. -/
theorem pivot_duplicate_cell_fails {κ δ μ : Type} [LinearOrder κ] [LinearOrder δ]
    [DecidableEq κ] [DecidableEq δ] (data : List (κ × δ × μ))
    (h : ∃ k, 2 ≤ (data.filter (fun t => keyPair t = k)).length) :
    pivot data = .error "Index contains duplicate entries, cannot reshape" := by
  obtain ⟨k, hk⟩ := h
  rw [pivot, if_neg (not_nodup_of_two_le_filter keyPair k data hk)]

/-- C6 (witness): the duplicate-cell failure at a concrete two-row table. -/
theorem pivot_duplicate_cell_fails_witness :
    2 ≤ (dataC6.filter
          (fun t => keyPair t = (("00:00" : String), ("2024-01-01" : String)))).length ∧
    pivot dataC6 = .error "Index contains duplicate entries, cannot reshape" :=
  ⟨by decide,
    pivot_duplicate_cell_fails dataC6 ⟨("00:00", "2024-01-01"), by decide⟩⟩

/-- C7: the weather de-duplication keeps exactly the first occurrence of
each (DATE, TIME) key and drops the rest, so the subsequent weather pivot
succeeds with no duplicate-key failure. -/
theorem weather_dedup_keeps_first {δ τ μ : Type} [LinearOrder δ] [LinearOrder τ]
    [DecidableEq δ] [DecidableEq τ] (rows : List (δ × τ × μ))
    (_hdup : ∃ k, 2 ≤ (rows.filter (fun r => keyDT r = k)).length) :
    (∀ k, ((dedupFirst rows).filter (fun r => keyDT r = k)).length
        = min 1 (rows.filter (fun r => keyDT r = k)).length) ∧
    (∀ k, ((dedupFirst rows).filter (fun r => keyDT r = k)).head?
        = (rows.filter (fun r => keyDT r = k)).head?) ∧
    isOkE (weatherPivot rows) = true := by
  have hfilter : ∀ k, (dedupFirst rows).filter (fun r => keyDT r = k)
      = (rows.filter (fun r => keyDT r = k)).take 1 :=
    fun k => dedupFirstAux_filter_not_mem k rows [] (by simp)
  refine ⟨?_, ?_, ?_⟩
  · intro k
    rw [hfilter k, List.length_take]
  · intro k
    rw [hfilter k]
    cases rows.filter (fun r => keyDT r = k) <;> rfl
  · rw [weatherPivot, pivot]
    have hnd : (((dedupFirst rows).map
        (fun r => (r.2.1, r.1, r.2.2))).map keyPair).Nodup := by
      rw [List.map_map]
      have hcomp : (keyPair ∘ (fun r : δ × τ × μ => (r.2.1, r.1, r.2.2)))
          = (fun r : δ × τ × μ => (r.2.1, r.1)) := rfl
      rw [hcomp]
      apply nodup_map_of_filter_le_one
      intro k
      obtain ⟨t, dd⟩ := k
      have hpe : (dedupFirst rows).filter (fun r => (r.2.1, r.1) = (t, dd))
          = (dedupFirst rows).filter (fun r => keyDT r = (dd, t)) := by
        apply List.filter_congr
        intro r _
        exact decide_eq_decide.mpr (by simp [keyDT, Prod.ext_iff, and_comm])
      rw [hpe, hfilter (dd, t), List.length_take]
      exact Nat.min_le_left _ _
    rw [if_pos hnd]
    rfl

/-- C7 (witness): the de-duplication contract at a weather table with a
repeated local hour. -/
theorem weather_dedup_keeps_first_witness :
    2 ≤ (rowsC7.filter
          (fun r => keyDT r = (("2024-11-03" : String), ("01:00" : String)))).length ∧
    ((∀ k, ((dedupFirst rowsC7).filter (fun r => keyDT r = k)).length
        = min 1 (rowsC7.filter (fun r => keyDT r = k)).length) ∧
     (∀ k, ((dedupFirst rowsC7).filter (fun r => keyDT r = k)).head?
        = (rowsC7.filter (fun r => keyDT r = k)).head?) ∧
     isOkE (weatherPivot rowsC7) = true) :=
  ⟨by decide,
    weather_dedup_keeps_first rowsC7 ⟨("2024-11-03", "01:00"), by decide⟩⟩

/-- C8: for a parsed row with USAGE 2.0 and COST "$1.00" the derived
price-per-unit is 0.5; for USAGE 0.0 the division yields no finite value
(`none`) and, `pricePerUnit` being a total function, does not crash. -/
theorem price_per_unit_cases :
    pricePerUnit ("$1.00".toList) 2 = some (1 / 2) ∧
    pricePerUnit ("$1.00".toList) 0 = none := by
  have hrm : removeDollar ['$', '1', '.', '0', '0'] = ['1', '.', '0', '0'] := by
    decide
  have hsp : splitOnChar '.' ['1', '.', '0', '0'] = [['1'], ['0', '0']] := by
    decide
  have hdg1 : digitGroup ['1'] = some 1 := by decide
  have hdg2 : digitGroup ['0', '0'] = some 0 := by decide
  constructor
  · simp [pricePerUnit, hrm, parseDecimal, hsp, hdg1, hdg2, fdiv]
  · simp [pricePerUnit, hrm, parseDecimal, hsp, hdg1, hdg2, fdiv]

/-- C9: the zip-code search is unanchored: on an address line whose only
digit run is the ten digits 9123456789 the locator still succeeds, taking
the leftmost nine-digit window 912345678 split as 91234 and 5678. -/
theorem zip_scan_unanchored :
    zipPairE (get_zip_header_line_col_names docC9) = some (91234, 5678) ∧
    isOkE (get_zip_header_line_col_names docC9) = true := by
  decide

/-- C10: the column names are the raw comma-split of the header line, with
nothing stripped: joining them with commas restores the line, a trailing
newline stays on the final name, and the CSV-read step receives exactly
this list. -/
theorem col_names_raw_split (lines : List (List Char)) (ha : HeaderAddress)
    (h : get_zip_header_line_col_names lines = .ok ha) :
    ha.col_names = splitOnChar ',' (lines.getD ha.header_line_num []) ∧
    joinChar ',' ha.col_names = lines.getD ha.header_line_num [] ∧
    ((lines.getD ha.header_line_num []).getLast? = some '\n' →
      ∃ g, ha.col_names.getLast? = some g ∧ g.getLast? = some '\n') ∧
    readCsvColumns ha = ha.col_names := by
  obtain ⟨a, z5, z4, _, _, _, _, hcols⟩ := locator_ok_inv h
  refine ⟨hcols, ?_, ?_, rfl⟩
  · rw [hcols, joinChar_splitOnChar]
  · intro hnl
    rw [hcols]
    exact getLast_splitOnChar ',' '\n' _ (by decide) hnl

/-- C10 (witness): the raw-split contract at a concrete document whose
header line ends in a newline. -/
theorem col_names_raw_split_witness :
    get_zip_header_line_col_names docC10 = .ok haC10 ∧
    (haC10.col_names = splitOnChar ',' (docC10.getD haC10.header_line_num []) ∧
     joinChar ',' haC10.col_names = docC10.getD haC10.header_line_num [] ∧
     ((docC10.getD haC10.header_line_num []).getLast? = some '\n' →
       ∃ g, haC10.col_names.getLast? = some g ∧ g.getLast? = some '\n') ∧
     readCsvColumns haC10 = haC10.col_names) :=
  ⟨rfl, col_names_raw_split docC10 haC10 rfl⟩

end PgePlots
